import Mathlib

/-!
Verification of the prog task-tracking store (Go package `internal/db` plus the
`internal/model` enums) against its natural-language specification.

The embedding models the SQLite-backed store as a `Store` value: the `items`,
`deps` and `logs` tables as lists of rows, plus the `labels` / `item_labels`
tables used by the label filter.  Each Go function of the db package becomes a
pure Lean function on `Store`; SQL statements are translated row-by-row
(`SELECT ... WHERE` becomes `List.filter` / `List.find?`, `INSERT` appends,
`UPDATE` maps, `DELETE` filters).  The schema constraints of db.go
(`id TEXT PRIMARY KEY` on items, `PRIMARY KEY (item_id, depends_on)` on deps,
`parent_id TEXT REFERENCES items(id)` with `PRAGMA foreign_keys = ON` set in
`Open`) are modelled where the Go code relies on them.  The `learnings` and
`projects` tables are outside the scope of the claims and are not modelled.

Machine integers: priorities and timestamps are small values never involved in
arithmetic that could overflow, so they are embedded as `Int` / `Nat`.
-/

namespace Prog

/-- A row of the `items` table (model.Item in Go): id, project, type, title,
description, definition_of_done, status, priority, parent_id, created_at,
updated_at.  Timestamps are abstract ticks. -/
structure Item where
  id : String
  project : String
  type : String
  title : String
  description : String
  dod : Option String
  status : String
  priority : Int
  parentId : Option String
  createdAt : Nat
  updatedAt : Nat
deriving Repr, DecidableEq

/-- A row of the `logs` table (the fields the claims mention). -/
structure LogEntry where
  itemId : String
  message : String
deriving Repr, DecidableEq

/-- A row of the `labels` table: id and name.  The table itself is created by
code outside src/; its columns are those referenced by the label-filter SQL in
queries.go (`labels l`, `l.id`, `l.name`). -/
structure LabelRow where
  id : Nat
  name : String
deriving Repr, DecidableEq

/-- A row of the `item_labels` table, as referenced by the label-filter SQL in
queries.go (`item_labels il`, `il.item_id`, `il.label_id`). -/
structure ItemLabel where
  itemId : String
  labelId : Nat
deriving Repr, DecidableEq

/-- A row of the `learnings` table (model.Learning in Go): id, project,
timestamps, the nullable `task_id` that references items(id), summary, detail,
the files JSON string, and status.  A learnings row matters to the claims
because its `task_id` foreign key can block DeleteItem. -/
structure Learning where
  id : String
  project : String
  createdAt : Nat
  updatedAt : Nat
  taskId : Option String
  summary : String
  detail : String
  files : String
  status : String
deriving Repr, DecidableEq

/-- The database state: the tables the claims are about.  `deps` rows are
pairs (item_id, depends_on). -/
structure Store where
  items : List Item
  deps : List (String × String)
  logs : List LogEntry
  labels : List LabelRow
  itemLabels : List ItemLabel
  learnings : List Learning
deriving Repr, DecidableEq

/-- The store of a freshly initialised database: every table empty. -/
def emptyStore : Store :=
  { items := [], deps := [], logs := [], labels := [], itemLabels := [], learnings := [] }

instance instDecEqExcept {α β : Type} [DecidableEq α] [DecidableEq β] :
    DecidableEq (Except α β) := fun a b =>
  match a, b with
  | .ok x, .ok y =>
    if h : x = y then .isTrue (by rw [h]) else .isFalse (fun hc => h (Except.ok.inj hc))
  | .error x, .error y =>
    if h : x = y then .isTrue (by rw [h]) else .isFalse (fun hc => h (Except.error.inj hc))
  | .ok _, .error _ => .isFalse (fun hc => Except.noConfusion hc)
  | .error _, .ok _ => .isFalse (fun hc => Except.noConfusion hc)

/-- Modelled from the spec: `model.Status.IsValid` is not under src/ (only its
tests in the model package test file).  The spec fixes the status enumeration
as {Open, InProgress, Blocked, Reviewing, Done, Canceled}; the string values
are pinned by the SQL literals in queries.go and by the model package tests
(`open`, `in_progress`, `blocked`, `reviewing`, `done`, `canceled`,
case sensitive). -/
def statusIsValid (st : String) : Bool :=
  st == "open" || st == "in_progress" || st == "blocked" || st == "reviewing" ||
    st == "done" || st == "canceled"

/-- Modelled from the spec: `model.ItemType.IsValid` is not under src/ (only
its tests).  The spec fixes the kinds as {Task, Epic}; the string values are
pinned by the SQL literals (`task`, `epic`) and the model package tests. -/
def typeIsValid (t : String) : Bool :=
  t == "task" || t == "epic"

/-- `SELECT ... FROM items WHERE id = ?`: the first row with the given id
(`id` is the primary key, so at most one row matches in a real database). -/
def findItem (s : Store) (id : String) : Option Item :=
  s.items.find? (fun i => i.id == id)

/-- `SELECT ... FROM items WHERE parent_id = ?`: the children of an epic. -/
def childrenOf (s : Store) (id : String) : List Item :=
  s.items.filter (fun c => c.parentId == some id)

/-- The number of children with a given status; models one bucket of the
`SELECT status, COUNT(*) ... GROUP BY status` query in deriveFromChildren. -/
def countStatus (stats : List String) (st : String) : Nat :=
  (stats.filter (fun c => c == st)).length

/-- deriveFromChildren (part_003): computes epic status from child states.
Manual override first; then the children are counted by status (the GROUP BY
query, with the `default:` arm of the Go switch made the error case); the
partition invariant is asserted; then the no-children / all-resolved /
all-blocked / any-progress / otherwise chain, in exactly the Go order. -/
def deriveFromChildren (s : Store) (epicID : String) (storedStatus : String) :
    Except String String :=
  if storedStatus == "done" || storedStatus == "canceled" then
    .ok storedStatus
  else
    let stats := (childrenOf s epicID).map Item.status
    if stats.any (fun c => !statusIsValid c) then
      .error ("deriveFromChildren: unknown child status for epic " ++ epicID)
    else
      let total := stats.length
      let cntOpen := countStatus stats "open"
      let cntDone := countStatus stats "done"
      let cntCanceled := countStatus stats "canceled"
      let cntBlocked := countStatus stats "blocked"
      let cntInProgress := countStatus stats "in_progress"
      let cntReviewing := countStatus stats "reviewing"
      if cntOpen + cntDone + cntCanceled + cntBlocked + cntInProgress + cntReviewing ≠ total then
        .error ("deriveFromChildren: partition mismatch for epic " ++ epicID)
      else if total = 0 then
        .ok storedStatus
      else if cntDone + cntCanceled = total then
        .ok "done"
      else if cntBlocked = total - cntDone - cntCanceled then
        .ok "blocked"
      else if cntInProgress > 0 ∨ cntReviewing > 0 ∨ cntDone > 0 then
        .ok "in_progress"
      else
        .ok "open"

/-- DeriveEpicStatus (part_003): looks the item up, validates its stored
status, returns the stored status unchanged for non-epics, and defers to
deriveFromChildren for epics. -/
def DeriveEpicStatus (s : Store) (epicID : String) : Except String String :=
  match findItem s epicID with
  | none => .error ("item not found: " ++ epicID)
  | some it =>
    if !statusIsValid it.status then
      .error ("DeriveEpicStatus: invalid stored status for item " ++ epicID)
    else if !(it.type == "epic") then
      .ok it.status
    else
      deriveFromChildren s epicID it.status

/-- applyDerivedEpicStatus (part_003): patches the status on an epic row with
the derived status; non-epic rows are returned unchanged. -/
def applyDerivedEpicStatus (s : Store) (it : Item) : Except String Item :=
  if it.type == "epic" then
    match deriveFromChildren s it.id it.status with
    | .error e => .error e
    | .ok d => .ok { it with status := d }
  else
    .ok it

/-- The row loop of queryItems (queries.go): applies applyDerivedEpicStatus to
every fetched row, stopping at the first failure. -/
def mapDerive (s : Store) : List Item → Except String (List Item)
  | [] => .ok []
  | i :: rest =>
    match applyDerivedEpicStatus s i with
    | .error e => .error e
    | .ok j =>
      match mapDerive s rest with
      | .error e => .error e
      | .ok js => .ok (j :: js)

/-- depUnresolvedExpr (queries.go): the SQL predicate on the dependency item
row `i` that is true when the dependency is NOT resolved.  `NOT (i.status IN
(done, canceled) OR (i.type = epic AND EXISTS(child) AND NOT EXISTS(child with
non-terminal status)))`. -/
def depUnresolvedExpr (s : Store) (i : Item) : Bool :=
  !((i.status == "done" || i.status == "canceled")
    || (i.type == "epic"
        && !(childrenOf s i.id).isEmpty
        && (childrenOf s i.id).all (fun c => c.status == "done" || c.status == "canceled")))

/-- The subquery `SELECT d.item_id FROM deps d JOIN items i ON d.depends_on =
i.id WHERE depUnresolvedExpr` shared by ReadyItemsFiltered, HasUnmetDeps and
the has-blockers / no-blockers list filters. -/
def unresolvedDepItemIDs (s : Store) : List String :=
  s.deps.filterMap (fun d =>
    match findItem s d.2 with
    | some i => if depUnresolvedExpr s i then some d.1 else none
    | none => none)

/-- HasUnmetDeps (part_002): true when the item has at least one dependency
edge whose target is unresolved (the COUNT(*) > 0 query). -/
def HasUnmetDeps (s : Store) (itemID : String) : Bool :=
  s.deps.any (fun d =>
    d.1 == itemID &&
      (match findItem s d.2 with
       | some i => depUnresolvedExpr s i
       | none => false))

/-- The label names attached to an item through the `item_labels JOIN labels`
of labelFilterClause (queries.go); `l.id` is the label primary key. -/
def labelNamesOf (s : Store) (itemID : String) : List String :=
  (s.itemLabels.filter (fun il => il.itemId == itemID)).filterMap
    (fun il => (s.labels.find? (fun l => l.id == il.labelId)).map (fun l => l.name))

/-- labelFilterClause (queries.go): with no labels the clause is empty;
otherwise the item must have all the requested labels (`HAVING
COUNT(DISTINCT l.name) = ?` over the names matching the IN list). -/
def labelFilterOk (s : Store) (labels : List String) (itemID : String) : Bool :=
  labels.isEmpty ||
    ((labelNamesOf s itemID).filter (fun n => labels.contains n)).dedup.length == labels.length

/-- `ORDER BY priority ASC, created_at ASC` as a Boolean order on rows. -/
def itemLE (a b : Item) : Bool :=
  decide (a.priority < b.priority) ||
    (decide (a.priority = b.priority) && decide (a.createdAt ≤ b.createdAt))

/-- Result ordering of the list/ready queries. -/
def sortItems (l : List Item) : List Item :=
  l.mergeSort itemLE

/-- ReadyItemsFiltered (queries.go): `status = 'open' AND type = 'task' AND id
NOT IN (unresolved-dependency subquery)`, optional project and label filters,
ordered by (priority, created_at), rows then passed through queryItems which
applies the derived epic status. -/
def ReadyItemsFiltered (s : Store) (project : String) (labels : List String) :
    Except String (List Item) :=
  mapDerive s (sortItems (s.items.filter (fun i =>
    i.status == "open" && i.type == "task"
      && !((unresolvedDepItemIDs s).contains i.id)
      && (project == "" || i.project == project)
      && labelFilterOk s labels i.id)))

/-- ListFilter (queries.go): optional filters for listing items. -/
structure ListFilter where
  project : String := ""
  status : Option String := none
  parent : String := ""
  type : String := ""
  blocking : String := ""
  blockedBy : String := ""
  hasBlockers : Bool := false
  noBlockers : Bool := false
  labels : List String := []
deriving Repr

/-- The non-status WHERE conjuncts of ListItemsFiltered: project, parent, type,
blocking (`id IN (SELECT depends_on FROM deps WHERE item_id = ?)`), blockedBy
(`id IN (SELECT item_id FROM deps WHERE depends_on = ?)`), has/no blockers
(membership in the unresolved-dependency subquery), and the label clause. -/
def listScope (s : Store) (f : ListFilter) (i : Item) : Bool :=
  (f.project == "" || i.project == f.project)
    && (f.parent == "" || i.parentId == some f.parent)
    && (f.type == "" || i.type == f.type)
    && (f.blocking == "" || s.deps.any (fun d => d.1 == f.blocking && d.2 == i.id))
    && (f.blockedBy == "" || s.deps.any (fun d => d.2 == f.blockedBy && d.1 == i.id))
    && (!f.hasBlockers || (unresolvedDepItemIDs s).contains i.id)
    && (!f.noBlockers || !((unresolvedDepItemIDs s).contains i.id))
    && labelFilterOk s f.labels i.id

/-- ListItemsFiltered (queries.go): validates the status and type filters (in
the Go order), selects rows — when a status filter is set the SQL keeps all
epics (`status = ? OR type = 'epic'`) because their effective status is
derived — orders by (priority, created_at), applies the derived epic status in
queryItems, and finally post-filters epics whose derived status does not
match. -/
def ListItemsFiltered (s : Store) (f : ListFilter) : Except String (List Item) :=
  if (match f.status with | some st => !statusIsValid st | none => false) then
    .error "invalid status"
  else if !(f.type == "") && !typeIsValid f.type then
    .error "invalid type"
  else
    let rows := s.items.filter (fun i =>
      listScope s f i &&
        (match f.status with
         | none => true
         | some st => (i.status == st || i.type == "epic")))
    match mapDerive s (sortItems rows) with
    | .error e => .error e
    | .ok derived =>
      match f.status with
      | some st => .ok (derived.filter (fun i => i.status == st))
      | none => .ok derived

/-- CreateItem (part_003): validates type and status, then runs the INSERT.
The INSERT itself is subject to the schema constraints of db.go (enforced by
SQLite with foreign keys on): a duplicate id violates the items primary key,
and `parent_id REFERENCES items(id)` requires the parent row to exist in the
table state after the insert — which includes the inserted row itself, so a
row whose parent_id equals its own id satisfies the constraint.  A parent_id
matching no row (neither the fresh row nor an existing one) makes the Exec
return an error and no row is inserted.  EnsureProject only touches the
projects table, which is not modelled. -/
def CreateItem (s : Store) (it : Item) : Except String Store :=
  if !typeIsValid it.type then
    .error ("invalid item type: " ++ it.type)
  else if !statusIsValid it.status then
    .error ("invalid status: " ++ it.status)
  else if s.items.any (fun i => i.id == it.id) then
    .error "failed to create item: UNIQUE constraint failed"
  else
    match it.parentId with
    | some p =>
      if p == it.id || s.items.any (fun i => i.id == p) then
        .ok { s with items := s.items ++ [it] }
      else
        .error "failed to create item: FOREIGN KEY constraint failed"
    | none => .ok { s with items := s.items ++ [it] }

/-- GetItem (part_003): fetch by id, then derive epic status at query time. -/
def GetItem (s : Store) (id : String) : Except String Item :=
  match findItem s id with
  | none => .error ("item not found: " ++ id)
  | some it => applyDerivedEpicStatus s it

/-- Models `UPDATE items SET ... WHERE id = ?` followed by the Go
`RowsAffected == 0` check that reports "item not found". -/
def updateItemRow (s : Store) (id : String) (g : Item → Item) : Except String Store :=
  if s.items.any (fun i => i.id == id) then
    .ok { s with items := s.items.map (fun i => if i.id == id then g i else i) }
  else
    .error ("item not found: " ++ id)

/-- UpdateStatus (part_003): validates the status, looks the item type up
(missing item reports not found), rejects non-terminal statuses on epics, then
updates the row. -/
def UpdateStatus (s : Store) (id status : String) (now : Nat) : Except String Store :=
  if !statusIsValid status then
    .error ("invalid status: " ++ status)
  else
    match findItem s id with
    | none => .error ("item not found: " ++ id)
    | some it =>
      if it.type == "epic" && !(status == "done") && !(status == "canceled") then
        .error "epic status is derived from children; only done and canceled can be set manually"
      else
        .ok { s with items := s.items.map (fun i =>
          if i.id == id then { i with status := status, updatedAt := now } else i) }

/-- SetParent (part_003): verifies the parent exists and is an epic, then
updates the row (RowsAffected == 0 reports the item missing). -/
def SetParent (s : Store) (itemID parentID : String) (now : Nat) : Except String Store :=
  match findItem s parentID with
  | none => .error ("parent not found: " ++ parentID)
  | some p =>
    if !(p.type == "epic") then
      .error ("parent must be an epic, got " ++ p.type)
    else
      updateItemRow s itemID (fun i => { i with parentId := some parentID, updatedAt := now })

/-- SetProject (part_003): EnsureProject touches only the unmodelled projects
table; then the row update. -/
def SetProject (s : Store) (id project : String) (now : Nat) : Except String Store :=
  updateItemRow s id (fun i => { i with project := project, updatedAt := now })

/-- SetDescription (part_003). -/
def SetDescription (s : Store) (id text : String) (now : Nat) : Except String Store :=
  updateItemRow s id (fun i => { i with description := text, updatedAt := now })

/-- AppendDescription (part_003): `description = COALESCE(description,'') || ?
|| char(10) || ?` with arguments "\n" and the text. -/
def AppendDescription (s : Store) (id text : String) (now : Nat) : Except String Store :=
  updateItemRow s id (fun i =>
    { i with description := i.description ++ "\n" ++ "\n" ++ text, updatedAt := now })

/-- SetTitle (part_003). -/
def SetTitle (s : Store) (id title : String) (now : Nat) : Except String Store :=
  updateItemRow s id (fun i => { i with title := title, updatedAt := now })

/-- SetDefinitionOfDone (part_003): sets or clears the definition of done. -/
def SetDefinitionOfDone (s : Store) (id : String) (dod : Option String) (now : Nat) :
    Except String Store :=
  updateItemRow s id (fun i => { i with dod := dod, updatedAt := now })

/-- AddDep (part_002): `SELECT COUNT(*) FROM items WHERE id IN (?, ?)` must
return 2, then `INSERT OR IGNORE INTO deps` (the (item_id, depends_on) primary
key makes the duplicate insert a no-op). -/
def AddDep (s : Store) (itemID dependsOnID : String) : Except String Store :=
  if (s.items.filter (fun i => i.id == itemID || i.id == dependsOnID)).length ≠ 2 then
    .error ("one or both items not found: " ++ itemID ++ ", " ++ dependsOnID)
  else
    .ok { s with deps :=
      if (itemID, dependsOnID) ∈ s.deps then s.deps else s.deps ++ [(itemID, dependsOnID)] }

/-- Modelled from the spec: the AddLog source is not under src/ (only its
tests).  Per the spec an item owns its log entries; the insert into the logs
table is subject to `item_id REFERENCES items(id)`. -/
def AddLog (s : Store) (itemID message : String) : Except String Store :=
  if s.items.any (fun i => i.id == itemID) then
    .ok { s with logs := s.logs ++ [{ itemId := itemID, message := message }] }
  else
    .error "failed to add log: FOREIGN KEY constraint failed"

/-- CreateLearning (learnings.go), restricted to the modelled tables: the
inserts run inside a transaction, so any failure leaves the store unchanged.
The learnings insert is subject to the learnings primary key and to
`task_id REFERENCES items(id)` with foreign keys on (the task does not have to
be set: task_id is nullable).  The concepts and learning_concepts rows written
by the same transaction reference only learnings/concepts, never items, and
are outside the claims' scope. -/
def CreateLearning (s : Store) (l : Learning) : Except String Store :=
  if s.learnings.any (fun x => x.id == l.id) then
    .error "failed to insert learning: UNIQUE constraint failed"
  else
    match l.taskId with
    | some tid =>
      if s.items.any (fun i => i.id == tid) then
        .ok { s with learnings := s.learnings ++ [l] }
      else
        .error "failed to insert learning: FOREIGN KEY constraint failed"
    | none => .ok { s with learnings := s.learnings ++ [l] }

/-- DeleteItem (part_003): existence check, then three DELETE statements in
order (logs, deps in both directions, the item) with no transaction around
them.  The final DELETE is subject to the remaining references to items(id)
with foreign keys on — `parent_id` from other item rows and `task_id` from
learnings rows (logs and deps rows naming the id are already gone): it fails
while any such reference remains, leaving the already-executed logs/deps
deletions in place.  The result is the Go error (if any) paired with the
mutated store. -/
def DeleteItem (s : Store) (id : String) : Option String × Store :=
  if (s.items.filter (fun i => i.id == id)).length = 0 then
    (some ("item not found: " ++ id), s)
  else
    let s1 : Store := { s with logs := s.logs.filter (fun l => !(l.itemId == id)) }
    let s2 : Store := { s1 with deps := s1.deps.filter (fun d => !(d.1 == id) && !(d.2 == id)) }
    if s2.items.any (fun c => !(c.id == id) && c.parentId == some id)
        || s2.learnings.any (fun l => l.taskId == some id) then
      (some "failed to delete item: FOREIGN KEY constraint failed", s2)
    else
      (none, { s2 with items := s2.items.filter (fun i => !(i.id == id)) })

/-- The reachable store states: everything obtainable from a fresh database
through the db-layer mutation API.  A failed DeleteItem still mutates the
store (its DELETE statements are not wrapped in a transaction), so its result
store is reachable whether or not it reports an error; all other operations
mutate only on success. -/
inductive Reachable : Store → Prop
  | init : Reachable emptyStore
  | createItem {s s' : Store} {it : Item} :
      Reachable s → CreateItem s it = .ok s' → Reachable s'
  | updateStatus {s s' : Store} {id st : String} {now : Nat} :
      Reachable s → UpdateStatus s id st now = .ok s' → Reachable s'
  | setParent {s s' : Store} {a b : String} {now : Nat} :
      Reachable s → SetParent s a b now = .ok s' → Reachable s'
  | setProject {s s' : Store} {id p : String} {now : Nat} :
      Reachable s → SetProject s id p now = .ok s' → Reachable s'
  | setDescription {s s' : Store} {id t : String} {now : Nat} :
      Reachable s → SetDescription s id t now = .ok s' → Reachable s'
  | appendDescription {s s' : Store} {id t : String} {now : Nat} :
      Reachable s → AppendDescription s id t now = .ok s' → Reachable s'
  | setTitle {s s' : Store} {id t : String} {now : Nat} :
      Reachable s → SetTitle s id t now = .ok s' → Reachable s'
  | setDefinitionOfDone {s s' : Store} {id : String} {dod : Option String} {now : Nat} :
      Reachable s → SetDefinitionOfDone s id dod now = .ok s' → Reachable s'
  | addDep {s s' : Store} {a b : String} :
      Reachable s → AddDep s a b = .ok s' → Reachable s'
  | addLog {s s' : Store} {a m : String} :
      Reachable s → AddLog s a m = .ok s' → Reachable s'
  | createLearning {s s' : Store} {l : Learning} :
      Reachable s → CreateLearning s l = .ok s' → Reachable s'
  | deleteItem {s : Store} (id : String) :
      Reachable s → Reachable (DeleteItem s id).2

/-- Every stored status is a member of the status enumeration; holds in every
reachable store because every write path validates. -/
def ValidStatuses (s : Store) : Prop :=
  ∀ i ∈ s.items, statusIsValid i.status = true

/-- The items primary key: ids are pairwise distinct. -/
def NodupIDs (s : Store) : Prop :=
  (s.items.map Item.id).Nodup

/-- Claim-side restatement of the derivation rules, written from the words of
spec section 4.3 for comparison with deriveFromChildren: manual override, then
empty passthrough, then all-resolved gives Done, then every non-resolved child
Blocked gives Blocked, then any InProgress/Reviewing/Done child gives
InProgress, otherwise Open. -/
def specDerive (stored : String) (children : List String) : String :=
  if stored == "done" || stored == "canceled" then stored
  else if children.isEmpty then stored
  else if children.all (fun c => c == "done" || c == "canceled") then "done"
  else if (children.filter (fun c => !(c == "done" || c == "canceled"))).all
      (fun c => c == "blocked") then "blocked"
  else if children.any (fun c => c == "in_progress" || c == "reviewing" || c == "done") then
    "in_progress"
  else "open"

/-! Concrete fixtures used to evaluate the theorems on explicit inputs. -/

/-- A plain open task. -/
def fxTask : Item :=
  { id := "ts-000001", project := "p", type := "task", title := "t1", description := "",
    dod := none, status := "open", priority := 2, parentId := none, createdAt := 0,
    updatedAt := 0 }

/-- A second task whose parent_id names the first task. -/
def fxTask2 : Item :=
  { fxTask with id := "ts-000002", parentId := some "ts-000001", createdAt := 1 }

/-- An epic created directly with the non-terminal status in_progress. -/
def fxEpicIP : Item :=
  { fxTask with id := "ep-000001", type := "epic", status := "in_progress" }

/-- An epic stored open. -/
def fxEpicOpen : Item :=
  { fxTask with id := "ep-000001", type := "epic" }

/-- A done task parented under the open epic. -/
def fxChildDone : Item :=
  { fxTask with
    id := "ts-000002"
    status := "done"
    parentId := some "ep-000001"
    createdAt := 1 }

/-- Store holding the single open task. -/
def fxStoreTask : Store := { emptyStore with items := [fxTask] }

/-- Store holding the epic that was created in_progress. -/
def fxStoreEpicIP : Store := { emptyStore with items := [fxEpicIP] }

/-- Store holding the childless open epic. -/
def fxStoreEpicOpen : Store := { emptyStore with items := [fxEpicOpen] }

/-- Store holding the open epic and its done child. -/
def fxStoreEpicChild : Store := { emptyStore with items := [fxEpicOpen, fxChildDone] }

/-! Counting lemmas connecting the COUNT(*)-style arithmetic of
deriveFromChildren with the all/any phrasing of the spec. -/

theorem statusIsValid_cases {c : String} (h : statusIsValid c = true) :
    c = "open" ∨ c = "in_progress" ∨ c = "blocked" ∨ c = "reviewing" ∨
      c = "done" ∨ c = "canceled" := by
  simp only [statusIsValid, Bool.or_eq_true, beq_iff_eq] at h
  tauto

theorem countStatus_nil (st : String) : countStatus [] st = 0 := rfl

theorem countStatus_cons (c : String) (cs : List String) (st : String) :
    countStatus (c :: cs) st = countStatus cs st + (if c = st then 1 else 0) := by
  by_cases h : c = st <;> simp [countStatus, List.filter_cons, h]

theorem countStatus_partition (stats : List String)
    (hv : ∀ c ∈ stats, statusIsValid c = true) :
    countStatus stats "open" + countStatus stats "done" + countStatus stats "canceled" +
        countStatus stats "blocked" + countStatus stats "in_progress" +
        countStatus stats "reviewing" = stats.length := by
  induction stats with
  | nil => simp [countStatus_nil]
  | cons c cs ih =>
    have hc := statusIsValid_cases (hv c (by simp))
    have ih := ih (fun x hx => hv x (by simp [hx]))
    simp only [countStatus_cons, List.length_cons]
    rcases hc with h | h | h | h | h | h <;> subst h <;> simp <;> omega

theorem count_done_add_canceled (stats : List String) :
    countStatus stats "done" + countStatus stats "canceled" =
      (stats.filter (fun c => c == "done" || c == "canceled")).length := by
  induction stats with
  | nil => simp [countStatus_nil]
  | cons c cs ih =>
    simp only [countStatus_cons, List.filter_cons]
    by_cases h1 : c = "done"
    · subst h1; simp; omega
    · by_cases h2 : c = "canceled"
      · subst h2; simp; omega
      · simp [h1, h2]; omega

theorem length_filter_add_not {α : Type} (l : List α) (p : α → Bool) :
    (l.filter p).length + (l.filter (fun a => !p a)).length = l.length := by
  induction l with
  | nil => simp
  | cons a t ih => by_cases h : p a <;> simp [List.filter_cons, h] <;> omega

theorem filter_blocked_sub (stats : List String) :
    stats.filter (fun c => c == "blocked") =
      (stats.filter (fun c => !(c == "done" || c == "canceled"))).filter
        (fun c => c == "blocked") := by
  rw [List.filter_filter]
  apply List.filter_congr
  intro c _
  by_cases h : c = "blocked"
  · subst h; rfl
  · simp [h]

theorem countStatus_pos_iff (stats : List String) (st : String) :
    0 < countStatus stats st ↔ ∃ c ∈ stats, c = st := by
  constructor
  · intro h
    rcases List.exists_mem_of_length_pos h with ⟨c, hc⟩
    have := List.mem_filter.mp hc
    exact ⟨c, this.1, by simpa [beq_iff_eq] using this.2⟩
  · rintro ⟨c, hc, rfl⟩
    have : c ∈ stats.filter (fun x => x == c) := List.mem_filter.mpr ⟨hc, by simp⟩
    exact List.length_pos.mpr (List.ne_nil_of_mem this)

theorem resolved_total_iff (stats : List String) :
    countStatus stats "done" + countStatus stats "canceled" = stats.length ↔
      stats.all (fun c => c == "done" || c == "canceled") = true := by
  rw [count_done_add_canceled, List.filter_length_eq_length, List.all_eq_true]

theorem blocked_total_iff (stats : List String) :
    countStatus stats "blocked" =
        stats.length - countStatus stats "done" - countStatus stats "canceled" ↔
      (stats.filter (fun c => !(c == "done" || c == "canceled"))).all
        (fun c => c == "blocked") = true := by
  have hb : countStatus stats "blocked" =
      ((stats.filter (fun c => !(c == "done" || c == "canceled"))).filter
        (fun c => c == "blocked")).length := by
    unfold countStatus
    rw [filter_blocked_sub]
  have hcompl := length_filter_add_not stats (fun c => (c == "done" || c == "canceled"))
  have hres := count_done_add_canceled stats
  have hnt : stats.length - countStatus stats "done" - countStatus stats "canceled" =
      (stats.filter (fun c => !(c == "done" || c == "canceled"))).length := by omega
  rw [hb, hnt, List.filter_length_eq_length, List.all_eq_true]

theorem progress_any_iff (stats : List String) :
    (0 < countStatus stats "in_progress" ∨ 0 < countStatus stats "reviewing" ∨
        0 < countStatus stats "done") ↔
      stats.any (fun c => c == "in_progress" || c == "reviewing" || c == "done") = true := by
  simp only [countStatus_pos_iff, List.any_eq_true, Bool.or_eq_true, beq_iff_eq]
  constructor
  · rintro (⟨c, hc, rfl⟩ | ⟨c, hc, rfl⟩ | ⟨c, hc, rfl⟩) <;> exact ⟨_, hc, by simp⟩
  · rintro ⟨c, hc, ((h | h) | h)⟩
    · exact Or.inl ⟨c, hc, h⟩
    · exact Or.inr (Or.inl ⟨c, hc, h⟩)
    · exact Or.inr (Or.inr ⟨c, hc, h⟩)

/-- The count-based branch chain of deriveFromChildren coincides with the
all/any-based chain of the spec restatement. -/
theorem chain_eq (stats : List String) :
    (if countStatus stats "done" + countStatus stats "canceled" = stats.length then
        (Except.ok "done" : Except String String)
      else if countStatus stats "blocked" =
          stats.length - countStatus stats "done" - countStatus stats "canceled" then
        .ok "blocked"
      else if countStatus stats "in_progress" > 0 ∨ countStatus stats "reviewing" > 0 ∨
          countStatus stats "done" > 0 then
        .ok "in_progress"
      else .ok "open") =
    .ok (if stats.all (fun c => c == "done" || c == "canceled") then "done"
      else if (stats.filter (fun c => !(c == "done" || c == "canceled"))).all
          (fun c => c == "blocked") then "blocked"
      else if stats.any (fun c => c == "in_progress" || c == "reviewing" || c == "done") then
        "in_progress"
      else "open") := by
  by_cases hres : stats.all (fun c => c == "done" || c == "canceled") = true
  · rw [if_pos ((resolved_total_iff stats).mpr hres), if_pos hres]
  · rw [if_neg (fun hx => hres ((resolved_total_iff stats).mp hx)), if_neg hres]
    by_cases hb : (stats.filter (fun c => !(c == "done" || c == "canceled"))).all
        (fun c => c == "blocked") = true
    · rw [if_pos ((blocked_total_iff stats).mpr hb), if_pos hb]
    · rw [if_neg (fun hx => hb ((blocked_total_iff stats).mp hx)), if_neg hb]
      by_cases hp : stats.any
          (fun c => c == "in_progress" || c == "reviewing" || c == "done") = true
      · rw [if_pos ((progress_any_iff stats).mpr hp), if_pos hp]
      · rw [if_neg (fun hx => hp ((progress_any_iff stats).mp hx)), if_neg hp]

/-- The source derivation agrees with the claim-side restatement whenever the
children statuses are members of the enumeration (the stored status needs no
assumption: both sides return it unchanged on override and on no children). -/
theorem deriveFromChildren_eq_spec (s : Store) (epicID stored : String)
    (hchild : ∀ c ∈ childrenOf s epicID, statusIsValid c.status = true) :
    deriveFromChildren s epicID stored =
      .ok (specDerive stored ((childrenOf s epicID).map Item.status)) := by
  have hv : ∀ c ∈ (childrenOf s epicID).map Item.status, statusIsValid c = true := by
    intro c hcmem
    obtain ⟨x, hx, rfl⟩ := List.mem_map.mp hcmem
    exact hchild x hx
  unfold deriveFromChildren specDerive
  by_cases h0 : (stored == "done" || stored == "canceled") = true
  · simp [h0]
  · simp only [h0, Bool.false_eq_true, if_false]
    set stats := (childrenOf s epicID).map Item.status with hstats
    have hA : stats.any (fun c => !statusIsValid c) = false := by
      rw [List.any_eq_false]
      intro c hc
      simp [hv c hc]
    have hpart := countStatus_partition stats hv
    simp only [hA, Bool.false_eq_true, if_false]
    rw [if_neg (by omega)]
    by_cases hemp : stats.length = 0
    · have he : stats = [] := List.length_eq_zero.mp hemp
      simp [hemp, he]
    · rw [if_neg hemp]
      have hne : stats.isEmpty = false := by
        cases hh : stats.isEmpty
        · rfl
        · exact absurd (by simpa using List.isEmpty_iff.mp hh) hemp
      rw [hne]
      simp only [Bool.false_eq_true, if_false]
      exact chain_eq stats

/-! Characterizations of the successful mutation operations, used to prove the
reachability invariants. -/

theorem updateItemRow_ok {s s' : Store} {id : String} {g : Item → Item}
    (h : updateItemRow s id g = .ok s') :
    s'.items = s.items.map (fun i => if i.id == id then g i else i) ∧
      s'.deps = s.deps ∧ s'.logs = s.logs ∧ s'.labels = s.labels ∧
      s'.itemLabels = s.itemLabels := by
  unfold updateItemRow at h
  split at h
  · cases h
    exact ⟨rfl, rfl, rfl, rfl, rfl⟩
  · simp at h

theorem CreateItem_ok {s s' : Store} {it : Item} (h : CreateItem s it = .ok s') :
    s'.items = s.items ++ [it] ∧ statusIsValid it.status = true ∧
      typeIsValid it.type = true ∧ (∀ i ∈ s.items, ¬ i.id = it.id) ∧
      (∀ pid, it.parentId = some pid → (pid = it.id ∨ ∃ j ∈ s.items, j.id = pid)) ∧
      s'.deps = s.deps ∧ s'.logs = s.logs ∧ s'.labels = s.labels ∧
      s'.itemLabels = s.itemLabels := by
  unfold CreateItem at h
  split at h
  · simp at h
  next htype =>
  split at h
  · simp at h
  next hstatus =>
  split at h
  · simp at h
  next hfresh =>
  have htype2 : typeIsValid it.type = true := by
    simpa using htype
  have hstatus2 : statusIsValid it.status = true := by
    simpa using hstatus
  have hfresh2 : ∀ i ∈ s.items, ¬ i.id = it.id := by
    intro i hi he
    exact hfresh (List.any_eq_true.mpr ⟨i, hi, by simpa using he⟩)
  split at h
  next pid hpid =>
    split at h
    next hpar =>
      cases h
      refine ⟨rfl, hstatus2, htype2, hfresh2, ?_, rfl, rfl, rfl, rfl⟩
      intro pid2 hpid2
      rw [hpid] at hpid2
      cases hpid2
      rw [Bool.or_eq_true] at hpar
      rcases hpar with hpar | hpar
      · exact Or.inl (by simpa using hpar)
      · obtain ⟨j, hj, hjid⟩ := List.any_eq_true.mp hpar
        exact Or.inr ⟨j, hj, by simpa using hjid⟩
    · simp at h
  next hpid =>
    cases h
    refine ⟨rfl, hstatus2, htype2, hfresh2, ?_, rfl, rfl, rfl, rfl⟩
    intro pid2 hpid2
    rw [hpid] at hpid2
    cases hpid2

theorem UpdateStatus_ok {s s' : Store} {id st : String} {now : Nat}
    (h : UpdateStatus s id st now = .ok s') :
    s'.items = s.items.map (fun i =>
        if i.id == id then { i with status := st, updatedAt := now } else i) ∧
      statusIsValid st = true ∧ s'.deps = s.deps ∧ s'.logs = s.logs ∧
      s'.labels = s.labels ∧ s'.itemLabels = s.itemLabels := by
  unfold UpdateStatus at h
  split at h
  · simp at h
  next hstatus =>
  have hstatus2 : statusIsValid st = true := by
    simpa using hstatus
  split at h
  · simp at h
  · split at h
    · simp at h
    · cases h
      exact ⟨rfl, hstatus2, rfl, rfl, rfl, rfl⟩

theorem SetParent_ok {s s' : Store} {a b : String} {now : Nat}
    (h : SetParent s a b now = .ok s') :
    s'.items = s.items.map (fun i =>
        if i.id == a then { i with parentId := some b, updatedAt := now } else i) ∧
      s'.deps = s.deps ∧ s'.logs = s.logs ∧ s'.labels = s.labels ∧
      s'.itemLabels = s.itemLabels := by
  unfold SetParent at h
  split at h
  · simp at h
  · split at h
    · simp at h
    · exact updateItemRow_ok h

theorem AddDep_ok {s s' : Store} {a b : String} (h : AddDep s a b = .ok s') :
    s'.items = s.items ∧ s'.logs = s.logs ∧ s'.labels = s.labels ∧
      s'.itemLabels = s.itemLabels := by
  unfold AddDep at h
  split at h
  · simp at h
  · cases h
    exact ⟨rfl, rfl, rfl, rfl⟩

theorem AddLog_ok {s s' : Store} {a m : String} (h : AddLog s a m = .ok s') :
    s'.items = s.items ∧ s'.deps = s.deps ∧ s'.labels = s.labels ∧
      s'.itemLabels = s.itemLabels := by
  unfold AddLog at h
  split at h
  · cases h
    exact ⟨rfl, rfl, rfl, rfl⟩
  · simp at h

theorem CreateLearning_ok {s s' : Store} {l : Learning}
    (h : CreateLearning s l = .ok s') :
    s'.items = s.items ∧ s'.deps = s.deps ∧ s'.logs = s.logs := by
  unfold CreateLearning at h
  split at h
  · simp at h
  · split at h
    · split at h
      · cases h
        exact ⟨rfl, rfl, rfl⟩
      · simp at h
    · cases h
      exact ⟨rfl, rfl, rfl⟩

theorem DeleteItem_items_cases (s : Store) (id : String) :
    (DeleteItem s id).2.items = s.items ∨
      (DeleteItem s id).2.items = s.items.filter (fun i => !(i.id == id)) := by
  unfold DeleteItem
  split
  · exact Or.inl rfl
  · dsimp only
    split
    · exact Or.inl rfl
    · exact Or.inr rfl

/-! Invariant preservation across the reachable states. -/

theorem mapUpdate_ids (l : List Item) (id : String) (g : Item → Item)
    (hg : ∀ i, (g i).id = i.id) :
    (l.map (fun i => if i.id == id then g i else i)).map Item.id = l.map Item.id := by
  induction l with
  | nil => rfl
  | cons a t ih =>
    simp only [List.map_cons]
    rw [ih]
    by_cases h : (a.id == id) = true
    · rw [if_pos h, hg a]
    · rw [if_neg h]

theorem mapUpdate_valid (l : List Item) (id : String) (g : Item → Item)
    (hl : ∀ i ∈ l, statusIsValid i.status = true)
    (hg : ∀ i ∈ l, statusIsValid (g i).status = true) :
    ∀ j ∈ l.map (fun i => if i.id == id then g i else i), statusIsValid j.status = true := by
  intro j hj
  obtain ⟨i, hi, rfl⟩ := List.mem_map.mp hj
  by_cases h : (i.id == id) = true
  · simpa [h] using hg i hi
  · simpa [h] using hl i hi

/-- A row update with id-preserving, status-validity-preserving patch function
keeps both invariants; packaged for the induction below. -/
theorem inv_mapUpdate {s s' : Store} {id : String} {g : Item → Item}
    (hitems : s'.items = s.items.map (fun i => if i.id == id then g i else i))
    (hgid : ∀ i, (g i).id = i.id)
    (hgstatus : ∀ i ∈ s.items, statusIsValid (g i).status = true)
    (hv : ValidStatuses s) (hn : NodupIDs s) :
    ValidStatuses s' ∧ NodupIDs s' := by
  constructor
  · intro i hi
    rw [hitems] at hi
    exact mapUpdate_valid s.items id g hv hgstatus i hi
  · unfold NodupIDs
    rw [hitems, mapUpdate_ids s.items id g hgid]
    exact hn

/-- Every reachable store has valid stored statuses and pairwise-distinct item
ids (every write path validates statuses; the items primary key is enforced on
insert). -/
theorem reachable_inv {s : Store} (h : Reachable s) : ValidStatuses s ∧ NodupIDs s := by
  induction h with
  | init =>
    constructor
    · intro i hi
      exact (List.not_mem_nil i hi).elim
    · exact List.nodup_nil
  | createItem hr hop ih =>
    obtain ⟨hv, hn⟩ := ih
    obtain ⟨hitems, hst, _, hfresh, _⟩ := CreateItem_ok hop
    constructor
    · intro i hi
      rw [hitems] at hi
      rcases List.mem_append.mp hi with h1 | h1
      · exact hv i h1
      · simp at h1
        subst h1
        exact hst
    · unfold NodupIDs
      rw [hitems, List.map_append, List.nodup_append]
      refine ⟨hn, by simp, ?_⟩
      intro x hx
      obtain ⟨i, hi, rfl⟩ := List.mem_map.mp hx
      simp only [List.map_cons, List.map_nil, List.mem_singleton]
      exact fun he => hfresh i hi he
  | updateStatus hr hop ih =>
    obtain ⟨hv, hn⟩ := ih
    obtain ⟨hitems, hst, _⟩ := UpdateStatus_ok hop
    exact inv_mapUpdate hitems (fun i => rfl) (fun i _ => hst) hv hn
  | setParent hr hop ih =>
    obtain ⟨hv, hn⟩ := ih
    obtain ⟨hitems, _⟩ := SetParent_ok hop
    exact inv_mapUpdate hitems (fun i => rfl) (fun i hi => hv i hi) hv hn
  | setProject hr hop ih =>
    obtain ⟨hv, hn⟩ := ih
    obtain ⟨hitems, _⟩ := updateItemRow_ok hop
    exact inv_mapUpdate hitems (fun i => rfl) (fun i hi => hv i hi) hv hn
  | setDescription hr hop ih =>
    obtain ⟨hv, hn⟩ := ih
    obtain ⟨hitems, _⟩ := updateItemRow_ok hop
    exact inv_mapUpdate hitems (fun i => rfl) (fun i hi => hv i hi) hv hn
  | appendDescription hr hop ih =>
    obtain ⟨hv, hn⟩ := ih
    obtain ⟨hitems, _⟩ := updateItemRow_ok hop
    exact inv_mapUpdate hitems (fun i => rfl) (fun i hi => hv i hi) hv hn
  | setTitle hr hop ih =>
    obtain ⟨hv, hn⟩ := ih
    obtain ⟨hitems, _⟩ := updateItemRow_ok hop
    exact inv_mapUpdate hitems (fun i => rfl) (fun i hi => hv i hi) hv hn
  | setDefinitionOfDone hr hop ih =>
    obtain ⟨hv, hn⟩ := ih
    obtain ⟨hitems, _⟩ := updateItemRow_ok hop
    exact inv_mapUpdate hitems (fun i => rfl) (fun i hi => hv i hi) hv hn
  | addDep hr hop ih =>
    obtain ⟨hv, hn⟩ := ih
    obtain ⟨hitems, _⟩ := AddDep_ok hop
    exact ⟨fun i hi => hv i (hitems ▸ hi), by unfold NodupIDs; rw [hitems]; exact hn⟩
  | addLog hr hop ih =>
    obtain ⟨hv, hn⟩ := ih
    obtain ⟨hitems, _⟩ := AddLog_ok hop
    exact ⟨fun i hi => hv i (hitems ▸ hi), by unfold NodupIDs; rw [hitems]; exact hn⟩
  | createLearning hr hop ih =>
    obtain ⟨hv, hn⟩ := ih
    obtain ⟨hitems, _⟩ := CreateLearning_ok hop
    exact ⟨fun i hi => hv i (hitems ▸ hi), by unfold NodupIDs; rw [hitems]; exact hn⟩
  | deleteItem id hr ih =>
    obtain ⟨hv, hn⟩ := ih
    rcases DeleteItem_items_cases _ id with hc | hc
    · exact ⟨fun i hi => hv i (hc ▸ hi), by unfold NodupIDs; rw [hc]; exact hn⟩
    · constructor
      · intro i hi
        rw [hc] at hi
        exact hv i (List.mem_filter.mp hi).1
      · unfold NodupIDs
        rw [hc]
        exact List.Nodup.sublist (List.Sublist.map Item.id (List.filter_sublist _)) hn

theorem find_of_mem_list (l : List Item) (hn : (l.map Item.id).Nodup) (X : Item)
    (hX : X ∈ l) : l.find? (fun i => i.id == X.id) = some X := by
  induction l with
  | nil => simp at hX
  | cons a t ih =>
    simp only [List.map_cons, List.nodup_cons] at hn
    by_cases h : (a.id == X.id) = true
    · rw [List.find?_cons_of_pos t (show (fun i => i.id == X.id) a = true from h)]
      rcases List.mem_cons.mp hX with rfl | hmem
      · rfl
      · exfalso
        have ha : a.id = X.id := by simpa using h
        exact hn.1 (ha ▸ List.mem_map_of_mem Item.id hmem)
    · rw [List.find?_cons_of_neg t (show ¬ (fun i => i.id == X.id) a = true from h)]
      rcases List.mem_cons.mp hX with rfl | hmem
      · simp at h
      · exact ih hn.2 hmem

/-- In a store with pairwise-distinct ids, the primary-key lookup of a stored
row returns that row. -/
theorem findItem_of_mem {s : Store} (hn : NodupIDs s) {X : Item} (hX : X ∈ s.items) :
    findItem s X.id = some X :=
  find_of_mem_list s.items hn X hX

/-! Lemmas about the query pipeline: ordering, the derived-status row loop,
and the unresolved-dependency subquery. -/

theorem itemLE_trans : ∀ a b c : Item, itemLE a b = true → itemLE b c = true →
    itemLE a c = true := by
  intro a b c hab hbc
  simp only [itemLE, Bool.or_eq_true, Bool.and_eq_true, decide_eq_true_eq] at *
  omega

theorem itemLE_total : ∀ a b : Item, (itemLE a b || itemLE b a) = true := by
  intro a b
  simp only [itemLE, Bool.or_eq_true, Bool.and_eq_true, decide_eq_true_eq]
  omega

theorem mem_sortItems {l : List Item} {y : Item} : y ∈ sortItems l ↔ y ∈ l :=
  (List.mergeSort_perm l itemLE).mem_iff

theorem sorted_sortItems (l : List Item) :
    (sortItems l).Pairwise (fun a b => itemLE a b = true) :=
  List.sorted_mergeSort itemLE_trans itemLE_total l

theorem applyDerived_nonEpic {s : Store} {it : Item} (h : (it.type == "epic") = false) :
    applyDerivedEpicStatus s it = .ok it := by
  unfold applyDerivedEpicStatus
  rw [h]
  rfl

theorem applyDerived_ok_of_valid {s : Store} (it : Item)
    (hchild : ∀ c ∈ childrenOf s it.id, statusIsValid c.status = true) :
    ∃ j, applyDerivedEpicStatus s it = .ok j := by
  unfold applyDerivedEpicStatus
  by_cases h : (it.type == "epic") = true
  · rw [h]
    rw [deriveFromChildren_eq_spec s it.id it.status hchild]
    exact ⟨_, rfl⟩
  · rw [Bool.not_eq_true] at h
    rw [h]
    exact ⟨it, rfl⟩

theorem mapDerive_id {s : Store} {l : List Item}
    (h : ∀ x ∈ l, applyDerivedEpicStatus s x = .ok x) : mapDerive s l = .ok l := by
  induction l with
  | nil => rfl
  | cons a t ih =>
    unfold mapDerive
    rw [h a (by simp), ih (fun x hx => h x (by simp [hx]))]

theorem mapDerive_ok_of {s : Store} {l : List Item}
    (h : ∀ x ∈ l, ∃ j, applyDerivedEpicStatus s x = .ok j) :
    ∃ der, mapDerive s l = .ok der ∧
      (∀ y, y ∈ der ↔ ∃ x ∈ l, applyDerivedEpicStatus s x = .ok y) := by
  induction l with
  | nil =>
    refine ⟨[], rfl, ?_⟩
    simp
  | cons a t ih =>
    obtain ⟨j, hj⟩ := h a (by simp)
    obtain ⟨der, hder, hmem⟩ := ih (fun x hx => h x (by simp [hx]))
    refine ⟨j :: der, ?_, ?_⟩
    · unfold mapDerive
      rw [hj, hder]
    · intro y
      simp only [List.mem_cons]
      constructor
      · rintro (rfl | hy)
        · exact ⟨a, Or.inl rfl, hj⟩
        · obtain ⟨x, hx, hxy⟩ := (hmem y).mp hy
          exact ⟨x, Or.inr hx, hxy⟩
      · rintro ⟨x, (rfl | hx), hxy⟩
        · exact Or.inl (by rw [hj] at hxy; cases hxy; rfl)
        · exact Or.inr ((hmem y).mpr ⟨x, hx, hxy⟩)

theorem mem_unresolvedDepItemIDs {s : Store} {x : String} :
    x ∈ unresolvedDepItemIDs s ↔
      ∃ d ∈ s.deps, d.1 = x ∧ ∃ i, findItem s d.2 = some i ∧ depUnresolvedExpr s i = true := by
  unfold unresolvedDepItemIDs
  rw [List.mem_filterMap]
  constructor
  · rintro ⟨d, hd, hf⟩
    refine ⟨d, hd, ?_⟩
    rcases hfi : findItem s d.2 with _ | i
    · rw [hfi] at hf
      simp at hf
    · rw [hfi] at hf
      dsimp only at hf
      by_cases hu : depUnresolvedExpr s i = true
      · rw [if_pos hu] at hf
        cases hf
        exact ⟨rfl, i, rfl, hu⟩
      · rw [if_neg hu] at hf
        simp at hf
  · rintro ⟨d, hd, rfl, i, hfi, hu⟩
    refine ⟨d, hd, ?_⟩
    rw [hfi]
    dsimp only
    rw [if_pos hu]

theorem contains_unresolved_iff (s : Store) (x : String) :
    ((unresolvedDepItemIDs s).contains x = true) ↔ HasUnmetDeps s x = true := by
  rw [List.contains_iff_exists_mem_beq]
  unfold HasUnmetDeps
  rw [List.any_eq_true]
  constructor
  · rintro ⟨a, ha, hax⟩
    have : x = a := by simpa using hax
    subst this
    obtain ⟨d, hd, rfl, i, hfi, hu⟩ := mem_unresolvedDepItemIDs.mp ha
    refine ⟨d, hd, ?_⟩
    rw [hfi]
    simp [hu]
  · rintro ⟨d, hd, hdx⟩
    rw [Bool.and_eq_true] at hdx
    obtain ⟨hd1, hd2⟩ := hdx
    have hd1x : d.1 = x := by simpa using hd1
    rcases hfi : findItem s d.2 with _ | i
    · rw [hfi] at hd2
      simp at hd2
    · rw [hfi] at hd2
      refine ⟨x, ?_, by simp⟩
      exact mem_unresolvedDepItemIDs.mpr ⟨d, hd, hd1x, i, hfi, hd2⟩

/-! The terminal-status characterization of the spec-side derivation, used by
the equivalence law. -/

theorem specDerive_terminal_iff (stored : String) (children : List String) :
    (specDerive stored children = "done" ∨ specDerive stored children = "canceled") ↔
      ((stored = "done" ∨ stored = "canceled") ∨
        (children ≠ [] ∧ ∀ c ∈ children, (c = "done" ∨ c = "canceled"))) := by
  unfold specDerive
  by_cases h0 : (stored == "done" || stored == "canceled") = true
  · rw [if_pos h0]
    simp only [Bool.or_eq_true, beq_iff_eq] at h0
    constructor
    · intro _
      exact Or.inl h0
    · intro _
      exact h0
  · rw [if_neg h0]
    simp only [Bool.or_eq_true, beq_iff_eq] at h0
    push_neg at h0
    by_cases hemp : children.isEmpty = true
    · rw [if_pos hemp]
      have he : children = [] := by simpa [List.isEmpty_iff] using hemp
      constructor
      · intro h
        exact absurd h (by tauto)
      · intro h
        rcases h with h | h
        · exact absurd h (by tauto)
        · exact absurd he h.1
    · rw [if_neg hemp]
      have hne : children ≠ [] := by
        intro he
        exact hemp (by simp [he])
      by_cases hall : children.all (fun c => c == "done" || c == "canceled") = true
      · rw [if_pos hall]
        simp only [List.all_eq_true, Bool.or_eq_true, beq_iff_eq] at hall
        constructor
        · intro _
          exact Or.inr ⟨hne, hall⟩
        · intro _
          exact Or.inl rfl
      · rw [if_neg hall]
        have hnall : ¬ ∀ c ∈ children, (c = "done" ∨ c = "canceled") := by
          intro hx
          exact hall (by simpa [List.all_eq_true, Bool.or_eq_true, beq_iff_eq] using hx)

        constructor
        · intro h
          exfalso
          split at h <;> [skip; split at h] <;> rcases h with h | h <;> simp at h
        · intro h
          rcases h with h | h
          · exact absurd h (by tauto)
          · exact absurd h.2 hnall

/-- DeriveEpicStatus evaluated on a stored row with valid statuses: the stored
status for non-epics, the derivation over the children otherwise. -/
theorem DeriveEpicStatus_spec {s : Store} {X : Item}
    (hfind : findItem s X.id = some X)
    (hvalid : statusIsValid X.status = true)
    (hchild : ∀ c ∈ childrenOf s X.id, statusIsValid c.status = true) :
    DeriveEpicStatus s X.id =
      .ok (if (X.type == "epic") = true then
            specDerive X.status ((childrenOf s X.id).map Item.status)
          else X.status) := by
  unfold DeriveEpicStatus
  rw [hfind]
  simp only [hvalid, Bool.not_true, Bool.false_eq_true, if_false]
  by_cases ht : (X.type == "epic") = true
  · rw [ht]
    simp only [Bool.not_true, Bool.false_eq_true, if_false, if_pos ht]
    exact deriveFromChildren_eq_spec s X.id X.status hchild
  · rw [Bool.not_eq_true] at ht
    rw [ht]
    simp only [Bool.not_false, if_true]
    rw [if_neg (by simp [ht])]

/-- The SQL unresolved predicate, read as a proposition. -/
theorem depUnresolvedExpr_false_iff (s : Store) (X : Item) :
    depUnresolvedExpr s X = false ↔
      ((X.status = "done" ∨ X.status = "canceled") ∨
        ((X.type == "epic") = true ∧ childrenOf s X.id ≠ [] ∧
          ∀ c ∈ childrenOf s X.id, (c.status = "done" ∨ c.status = "canceled"))) := by
  unfold depUnresolvedExpr
  constructor
  · intro h
    have h2 : ((X.status == "done" || X.status == "canceled")
        || (X.type == "epic" && !(childrenOf s X.id).isEmpty
            && (childrenOf s X.id).all
              (fun c => c.status == "done" || c.status == "canceled"))) = true := by
      cases hb : ((X.status == "done" || X.status == "canceled")
        || (X.type == "epic" && !(childrenOf s X.id).isEmpty
            && (childrenOf s X.id).all
              (fun c => c.status == "done" || c.status == "canceled")))
      · rw [hb] at h
        simp at h
      · rfl
    simp only [Bool.or_eq_true, Bool.and_eq_true, beq_iff_eq, List.all_eq_true] at h2
    rcases h2 with h2 | ⟨⟨hb, hc⟩, hd⟩
    · exact Or.inl h2
    · refine Or.inr ⟨by simp [hb], ?_, ?_⟩
      · intro he
        rw [he] at hc
        simp at hc
      · intro c hcmem
        simpa using hd c hcmem
  · intro h
    have h2 : ((X.status == "done" || X.status == "canceled")
        || (X.type == "epic" && !(childrenOf s X.id).isEmpty
            && (childrenOf s X.id).all
              (fun c => c.status == "done" || c.status == "canceled"))) = true := by
      simp only [Bool.or_eq_true, Bool.and_eq_true, beq_iff_eq, List.all_eq_true]
      rcases h with h | ⟨hb, hc, hd⟩
      · exact Or.inl h
      · refine Or.inr ⟨⟨by simpa using hb, ?_⟩, ?_⟩
        · simp only [Bool.not_eq_true']
          exact Bool.eq_false_iff.mpr (fun he => hc (List.isEmpty_iff.mp he))
        · intro c hcmem
          simpa using hd c hcmem
    rw [h2]
    rfl

/-- Claim C1: for every reachable store state and every stored item X, the
derived effective status of X (stored status for a Task, the derivation
engine for an Epic — both computed by DeriveEpicStatus) is done or canceled
exactly when the SQL dependency-resolution predicate depUnresolvedExpr
reports X resolved. -/
theorem C1_effective_terminal_iff_resolved (s : Store) (X : Item)
    (hs : Reachable s) (hX : X ∈ s.items) :
    ∃ eff, DeriveEpicStatus s X.id = .ok eff ∧
      ((eff = "done" ∨ eff = "canceled") ↔ depUnresolvedExpr s X = false) := by
  obtain ⟨hvs, hn⟩ := reachable_inv hs
  have hfind := findItem_of_mem hn hX
  have hvalid := hvs X hX
  have hchild : ∀ c ∈ childrenOf s X.id, statusIsValid c.status = true :=
    fun c hc => hvs c (List.mem_filter.mp hc).1
  rw [DeriveEpicStatus_spec hfind hvalid hchild]
  refine ⟨_, rfl, ?_⟩
  rw [depUnresolvedExpr_false_iff]
  by_cases ht : (X.type == "epic") = true
  · rw [if_pos ht, specDerive_terminal_iff]
    simp only [ne_eq, List.map_eq_nil_iff, List.forall_mem_map]
    constructor
    · rintro (h | ⟨hc, hd⟩)
      · exact Or.inl h
      · exact Or.inr ⟨ht, hc, hd⟩
    · rintro (h | ⟨_, hc, hd⟩)
      · exact Or.inl h
      · exact Or.inr ⟨hc, hd⟩
  · rw [if_neg ht]
    constructor
    · intro h
      exact Or.inl h
    · rintro (h | ⟨hb, _⟩)
      · exact h
      · exact absurd hb ht

/-- Witness for C1 on a concrete reachable store: the single-task store
obtained by one CreateItem from the empty database. -/
theorem C1_witness :
    ∃ eff, DeriveEpicStatus fxStoreTask fxTask.id = .ok eff ∧
      ((eff = "done" ∨ eff = "canceled") ↔ depUnresolvedExpr fxStoreTask fxTask = false) :=
  C1_effective_terminal_iff_resolved fxStoreTask fxTask
    (Reachable.createItem Reachable.init
      (show CreateItem emptyStore fxTask = .ok fxStoreTask from rfl)) (by decide)

/-- Claim C2: the derivation engine returns, for a Task, the stored status
unchanged; for an Epic, the chain of spec section 4.3 over the multiset of the
children stored statuses (one level): stored status on a done/canceled
override or when childless; else Done when every child is done/canceled, else
Blocked when every non-resolved child is blocked, else InProgress when some
child is in_progress/reviewing/done, else Open — checks in exactly that order
(the order of the if-chain in specDerive). -/
theorem C2_derivation_engine (s : Store) (X : Item)
    (hfind : findItem s X.id = some X)
    (hvalid : statusIsValid X.status = true)
    (hchild : ∀ c ∈ childrenOf s X.id, statusIsValid c.status = true) :
    (X.type = "task" → DeriveEpicStatus s X.id = .ok X.status) ∧
    (X.type = "epic" → DeriveEpicStatus s X.id =
      .ok (specDerive X.status ((childrenOf s X.id).map Item.status))) := by
  rw [DeriveEpicStatus_spec hfind hvalid hchild]
  constructor
  · intro htask
    rw [if_neg (by simp [htask])]
  · intro hepic
    rw [if_pos (by simp [hepic])]

/-- Witness for C2: the open epic with one done child; the engine reports the
epic as done while the task branch is evaluated on the child. -/
theorem C2_witness :
    (fxEpicOpen.type = "task" →
        DeriveEpicStatus fxStoreEpicChild fxEpicOpen.id = .ok fxEpicOpen.status) ∧
    (fxEpicOpen.type = "epic" → DeriveEpicStatus fxStoreEpicChild fxEpicOpen.id =
      .ok (specDerive fxEpicOpen.status
        ((childrenOf fxStoreEpicChild fxEpicOpen.id).map Item.status))) :=
  C2_derivation_engine fxStoreEpicChild fxEpicOpen (by decide) (by decide) (by decide)

/-- Claim C3: ready_items returns exactly the Task rows whose stored status is
open and that have no unresolved dependency, within the optional project and
label scope, and the result is ordered by priority ascending then creation
time ascending.  Epics and non-open tasks never appear: membership forces
type task and status open. -/
theorem C3_ready_items (s : Store) (project : String) (labels : List String) :
    ∃ l, ReadyItemsFiltered s project labels = .ok l ∧
      (∀ y, y ∈ l ↔ (y ∈ s.items ∧ y.type = "task" ∧ y.status = "open" ∧
        HasUnmetDeps s y.id = false ∧ (project = "" ∨ y.project = project) ∧
        labelFilterOk s labels y.id = true)) ∧
      l.Pairwise (fun a b => itemLE a b = true) := by
  set rows := s.items.filter (fun i =>
    i.status == "open" && i.type == "task"
      && !((unresolvedDepItemIDs s).contains i.id)
      && (project == "" || i.project == project)
      && labelFilterOk s labels i.id) with hrows
  have htask : ∀ x ∈ sortItems rows, (x.type == "epic") = false := by
    intro x hx
    have hxr := mem_sortItems.mp hx
    have hf := (List.mem_filter.mp hxr).2
    simp only [Bool.and_eq_true] at hf
    have ht : (x.type == "task") = true := hf.1.1.1.2
    have : x.type = "task" := by simpa using ht
    simp [this]
  have hmd : mapDerive s (sortItems rows) = .ok (sortItems rows) :=
    mapDerive_id (fun x hx => applyDerived_nonEpic (htask x hx))
  refine ⟨sortItems rows, ?_, ?_, sorted_sortItems rows⟩
  · unfold ReadyItemsFiltered
    rw [← hrows]
    exact hmd
  · intro y
    rw [mem_sortItems, hrows, List.mem_filter]
    simp only [Bool.and_eq_true, Bool.or_eq_true, Bool.not_eq_true', beq_iff_eq]
    constructor
    · rintro ⟨hy, ⟨⟨⟨hopen, htask2⟩, hnot⟩, hproj⟩, hlab⟩
      refine ⟨hy, htask2, hopen, ?_, hproj, hlab⟩
      cases hh : HasUnmetDeps s y.id
      · rfl
      · have hcontra := (contains_unresolved_iff s y.id).mpr hh
        rw [hnot] at hcontra
        simp at hcontra
    · rintro ⟨hy, htask2, hopen, hunmet, hproj, hlab⟩
      refine ⟨hy, ⟨⟨⟨hopen, htask2⟩, ?_⟩, hproj⟩, hlab⟩
      cases hh : (unresolvedDepItemIDs s).contains y.id
      · rfl
      · have hcontra := (contains_unresolved_iff s y.id).mp hh
        rw [hunmet] at hcontra
        simp at hcontra

/-- Claim C4: for an existing epic and any valid status S, update_status
rejects S outside {done, canceled} with an error (the Go function returns
before issuing any UPDATE, so the store is untouched), and accepts S in
{done, canceled}, setting the stored status. -/
theorem C4_epic_update_status (s : Store) (id S : String) (now : Nat) (e : Item)
    (hfind : findItem s id = some e) (hepic : e.type = "epic")
    (hS : statusIsValid S = true) :
    ((¬ S = "done" ∧ ¬ S = "canceled") →
      ∃ msg, UpdateStatus s id S now = .error msg) ∧
    ((S = "done" ∨ S = "canceled") → UpdateStatus s id S now =
      .ok { s with items := s.items.map (fun i =>
        if i.id == id then { i with status := S, updatedAt := now } else i) }) := by
  unfold UpdateStatus
  rw [hfind]
  simp only [hS, Bool.not_true, Bool.false_eq_true, if_false]
  constructor
  · rintro ⟨h1, h2⟩
    rw [if_pos (by simp [hepic, h1, h2])]
    exact ⟨_, rfl⟩
  · intro h
    rw [if_neg (by rcases h with h | h <;> simp [h])]

/-- Witness for C4 on the childless open epic, rejecting in_progress. -/
theorem C4_witness :
    ((¬ "in_progress" = "done" ∧ ¬ "in_progress" = "canceled") →
      ∃ msg, UpdateStatus fxStoreEpicOpen "ep-000001" "in_progress" 5 = .error msg) ∧
    (("in_progress" = "done" ∨ "in_progress" = "canceled") →
      UpdateStatus fxStoreEpicOpen "ep-000001" "in_progress" 5 =
        .ok { fxStoreEpicOpen with items := fxStoreEpicOpen.items.map (fun i =>
          if i.id == "ep-000001" then { i with status := "in_progress", updatedAt := 5 }
          else i) }) :=
  C4_epic_update_status fxStoreEpicOpen "ep-000001" "in_progress" 5 fxEpicOpen
    (by decide) (by decide) (by decide)

/-- Claim C5 counterexample: CreateItem accepts an epic created directly with
the valid non-terminal status in_progress (it validates only type and status),
so the store holding that childless epic is reachable, yet its derived
effective status is the stored in_progress, not open — deriveFromChildren
passes the stored status through when there are no children. -/
theorem C5_counterexample :
    Reachable fxStoreEpicIP ∧ fxEpicIP ∈ fxStoreEpicIP.items ∧
      fxEpicIP.type = "epic" ∧ ¬ fxEpicIP.status = "done" ∧
      ¬ fxEpicIP.status = "canceled" ∧ childrenOf fxStoreEpicIP fxEpicIP.id = [] ∧
      DeriveEpicStatus fxStoreEpicIP fxEpicIP.id = .ok "in_progress" ∧
      ¬ DeriveEpicStatus fxStoreEpicIP fxEpicIP.id = .ok "open" :=
  ⟨Reachable.createItem Reachable.init
      (show CreateItem emptyStore fxEpicIP = .ok fxStoreEpicIP from rfl),
    by decide, rfl, by decide, by decide, by decide, by decide, by decide⟩

/-- Claim C5 as amended: for every reachable childless epic without a terminal
override, the effective status equals the stored status (passthrough); it is
open exactly when the epic is stored open, which holds for epics created with
the default open status. -/
theorem C5_amended_childless_passthrough (s : Store) (X : Item)
    (hs : Reachable s) (hX : X ∈ s.items) (hepic : X.type = "epic")
    (hnd : ¬ X.status = "done") (hnc : ¬ X.status = "canceled")
    (hnochild : childrenOf s X.id = []) :
    DeriveEpicStatus s X.id = .ok X.status := by
  obtain ⟨hvs, hn⟩ := reachable_inv hs
  have hfind := findItem_of_mem hn hX
  have hvalid := hvs X hX
  have hchild : ∀ c ∈ childrenOf s X.id, statusIsValid c.status = true := by
    rw [hnochild]
    simp
  rw [DeriveEpicStatus_spec hfind hvalid hchild]
  rw [if_pos (by simp [hepic])]
  unfold specDerive
  rw [hnochild]
  simp [hnd, hnc]

/-- Witness for the amended C5 on the childless open epic. -/
theorem C5_witness :
    DeriveEpicStatus fxStoreEpicOpen fxEpicOpen.id = .ok fxEpicOpen.status :=
  C5_amended_childless_passthrough fxStoreEpicOpen fxEpicOpen
    (Reachable.createItem Reachable.init
      (show CreateItem emptyStore fxEpicOpen = .ok fxStoreEpicOpen from rfl))
    (by decide) (by decide) (by decide) (by decide) (by decide)

/-- Claim C6 counterexample: CreateItem performs no parent-kind check — an
item whose parent_id names an existing Task satisfies the foreign key and is
inserted successfully, contradicting "creating an item whose parent_id
references an existing Task is rejected". -/
theorem C6_counterexample :
    fxTask ∈ fxStoreTask.items ∧ fxTask.type = "task" ∧
      fxTask2.parentId = some fxTask.id ∧
      CreateItem fxStoreTask fxTask2 =
        .ok { fxStoreTask with items := fxStoreTask.items ++ [fxTask2] } :=
  ⟨by decide, rfl, rfl, rfl⟩

/-- Claim C6 as amended: create fails exactly when the kind is invalid, the
status is invalid, the id collides with an existing row, or the referenced
parent exists neither among the current rows nor as the inserted row itself
(the parent_id foreign key is checked against the post-insert table state, so
an item whose parent_id equals its own fresh id is accepted); an existing
non-epic parent is accepted at creation.  Non-epic parents are rejected only
by set_parent at assignment time.  On failure no item is inserted (the error
branches return before the insert). -/
theorem C6_amended_create_validation (s : Store) (it : Item) (a p : String) (q : Item)
    (now : Nat) (hq : findItem s p = some q) (hqt : ¬ q.type = "epic") :
    ((∃ s2, CreateItem s it = .ok s2) ↔
      (typeIsValid it.type = true ∧ statusIsValid it.status = true ∧
        (∀ i ∈ s.items, ¬ i.id = it.id) ∧
        (∀ pid, it.parentId = some pid →
          (pid = it.id ∨ ∃ j ∈ s.items, j.id = pid)))) ∧
    (∃ msg, SetParent s a p now = .error msg) := by
  constructor
  · constructor
    · rintro ⟨s2, hs2⟩
      obtain ⟨_, hst, hty, hfresh, hpar, _⟩ := CreateItem_ok hs2
      exact ⟨hty, hst, hfresh, hpar⟩
    · rintro ⟨hty, hst, hfresh, hpar⟩
      unfold CreateItem
      rw [if_neg (by simp [hty]), if_neg (by simp [hst]),
        if_neg (fun hx => by
          obtain ⟨i, hi, hip⟩ := List.any_eq_true.mp hx
          exact hfresh i hi (by simpa using hip))]
      rcases hp : it.parentId with _ | pid
      · exact ⟨_, rfl⟩
      · dsimp only
        rcases hpar pid hp with hself | ⟨j, hj, hjid⟩
        · rw [if_pos (by simp [hself])]
          exact ⟨_, rfl⟩
        · rw [if_pos (by
            rw [Bool.or_eq_true]
            exact Or.inr (List.any_eq_true.mpr ⟨j, hj, by simp [hjid]⟩))]
          exact ⟨_, rfl⟩
  · unfold SetParent
    rw [hq]
    dsimp only
    rw [if_pos (by simp [hqt])]
    exact ⟨_, rfl⟩

/-- Witness for the amended C6 on the single-task store, with the task itself
as attempted set_parent target. -/
theorem C6_witness :
    ((∃ s2, CreateItem fxStoreTask fxTask2 = .ok s2) ↔
      (typeIsValid fxTask2.type = true ∧ statusIsValid fxTask2.status = true ∧
        (∀ i ∈ fxStoreTask.items, ¬ i.id = fxTask2.id) ∧
        (∀ pid, fxTask2.parentId = some pid →
          (pid = fxTask2.id ∨ ∃ j ∈ fxStoreTask.items, j.id = pid)))) ∧
    (∃ msg, SetParent fxStoreTask "ts-000001" "ts-000001" 7 = .error msg) :=
  C6_amended_create_validation fxStoreTask fxTask2 "ts-000001" "ts-000001" fxTask 7
    (by decide) (by decide)

/-! Row-count lemmas for the AddDep existence check
(`SELECT COUNT(*) FROM items WHERE id IN (?, ?)`). -/

theorem filter_id_le_one (l : List Item) (hn : (l.map Item.id).Nodup) (x : String) :
    (l.filter (fun i => i.id == x)).length ≤ 1 := by
  induction l with
  | nil => simp
  | cons i t ih =>
    simp only [List.map_cons, List.nodup_cons] at hn
    by_cases h : (i.id == x) = true
    · have hix : i.id = x := by simpa using h
      have htail : t.filter (fun j => j.id == x) = [] := by
        rw [List.filter_eq_nil_iff]
        intro j hj hjx
        have hjx2 : j.id = x := by simpa using hjx
        exact hn.1 (by rw [hix, ← hjx2]; exact List.mem_map_of_mem Item.id hj)
      simp [List.filter_cons, h, htail]
    · simp only [List.filter_cons, h, Bool.false_eq_true, if_false]
      exact ih hn.2

theorem filter_id_eq_one (l : List Item) (hn : (l.map Item.id).Nodup) (x : String)
    (hex : ∃ i ∈ l, i.id = x) : (l.filter (fun i => i.id == x)).length = 1 := by
  obtain ⟨i, hi, hix⟩ := hex
  have hmem : i ∈ l.filter (fun j => j.id == x) :=
    List.mem_filter.mpr ⟨hi, by simp [hix]⟩
  have hpos : 0 < (l.filter (fun j => j.id == x)).length :=
    List.length_pos.mpr (List.ne_nil_of_mem hmem)
  have hle := filter_id_le_one l hn x
  omega

theorem filter_id_eq_nil (l : List Item) (x : String)
    (hnone : ¬ ∃ i ∈ l, i.id = x) : l.filter (fun i => i.id == x) = [] := by
  rw [List.filter_eq_nil_iff]
  intro j hj hjx
  exact hnone ⟨j, hj, by simpa using hjx⟩

theorem filter_two_ids_split (l : List Item) (a b : String) (hab : ¬ a = b) :
    (l.filter (fun i => i.id == a || i.id == b)).length =
      (l.filter (fun i => i.id == a)).length + (l.filter (fun i => i.id == b)).length := by
  induction l with
  | nil => rfl
  | cons i t ih =>
    by_cases ha : (i.id == a) = true
    · have hia : i.id = a := by simpa using ha
      have hb : (i.id == b) = false := by
        rw [hia]
        exact beq_eq_false_iff_ne.mpr hab
      simp only [List.filter_cons, ha, hb, Bool.true_or, Bool.false_eq_true, if_true,
        if_false, List.length_cons]
      omega
    · by_cases hb : (i.id == b) = true
      · simp only [List.filter_cons, ha, hb, Bool.false_or, Bool.false_eq_true, if_true,
          if_false, List.length_cons]
        omega
      · simp only [List.filter_cons, ha, hb, Bool.or_self, Bool.false_eq_true, if_false]
        exact ih

/-- Claim C7 counterexample: AddDep on an existing item against itself fails —
`WHERE id IN (x, x)` matches a single row, so the COUNT(*) check (= 2) rejects
even though both endpoints name an existing item, contradicting "fails exactly
when a or b does not reference an existing item; when both endpoints exist it
succeeds". -/
theorem C7_counterexample :
    (∃ i ∈ fxStoreTask.items, i.id = "ts-000001") ∧
      (∃ msg, AddDep fxStoreTask "ts-000001" "ts-000001" = .error msg) :=
  ⟨⟨fxTask, by decide, rfl⟩, ⟨_, rfl⟩⟩

/-- Claim C7 as amended: with distinct endpoints, add_edge succeeds exactly
when both endpoints exist, and re-adding an existing edge leaves the edge set
unchanged (INSERT OR IGNORE); it fails when either endpoint is missing or when
the two endpoints coincide (the COUNT(*) = 2 existence check counts rows, so a
self-edge on an existing item is rejected as not-found). -/
theorem C7_amended_add_edge (s : Store) (a b : String) (hn : NodupIDs s) :
    ((¬ a = b ∧ (∃ ia ∈ s.items, ia.id = a) ∧ (∃ ib ∈ s.items, ib.id = b)) →
      AddDep s a b = .ok { s with deps :=
        if (a, b) ∈ s.deps then s.deps else s.deps ++ [(a, b)] }) ∧
    (((¬ ∃ ia ∈ s.items, ia.id = a) ∨ (¬ ∃ ib ∈ s.items, ib.id = b) ∨ a = b) →
      ∃ msg, AddDep s a b = .error msg) := by
  constructor
  · rintro ⟨hab, hea, heb⟩
    unfold AddDep
    rw [if_neg ?hcount]
    case hcount =>
      rw [filter_two_ids_split s.items a b hab,
        filter_id_eq_one s.items hn a hea, filter_id_eq_one s.items hn b heb]
      simp
  · intro h
    unfold AddDep
    have hne2 : (s.items.filter (fun i => i.id == a || i.id == b)).length ≠ 2 := by
      by_cases hab : a = b
      · subst hab
        have hcong : s.items.filter (fun i => i.id == a || i.id == a) =
            s.items.filter (fun i => i.id == a) :=
          List.filter_congr (fun i _ => Bool.or_self _)
        rw [hcong]
        have := filter_id_le_one s.items hn a
        omega
      · rw [filter_two_ids_split s.items a b hab]
        have hlea := filter_id_le_one s.items hn a
        have hleb := filter_id_le_one s.items hn b
        rcases h with h | h | h
        · rw [filter_id_eq_nil s.items a h]
          simp only [List.length_nil]
          omega
        · rw [filter_id_eq_nil s.items b h]
          simp only [List.length_nil]
          omega
        · exact absurd h hab
    rw [if_pos hne2]
    exact ⟨_, rfl⟩

/-- Witness for the amended C7: distinct existing endpoints succeed; the store
with the epic and its child gains the edge. -/
theorem C7_witness :
    ((¬ "ep-000001" = "ts-000002" ∧
        (∃ ia ∈ fxStoreEpicChild.items, ia.id = "ep-000001") ∧
        (∃ ib ∈ fxStoreEpicChild.items, ib.id = "ts-000002")) →
      AddDep fxStoreEpicChild "ep-000001" "ts-000002" = .ok { fxStoreEpicChild with
        deps := if ("ep-000001", "ts-000002") ∈ fxStoreEpicChild.deps then
            fxStoreEpicChild.deps
          else fxStoreEpicChild.deps ++ [("ep-000001", "ts-000002")] }) ∧
    (((¬ ∃ ia ∈ fxStoreEpicChild.items, ia.id = "ep-000001") ∨
        (¬ ∃ ib ∈ fxStoreEpicChild.items, ib.id = "ts-000002") ∨
        "ep-000001" = "ts-000002") →
      ∃ msg, AddDep fxStoreEpicChild "ep-000001" "ts-000002" = .error msg) :=
  C7_amended_add_edge fxStoreEpicChild "ep-000001" "ts-000002"
    (by unfold NodupIDs; decide)

/-- Claim C10: add_edge(x, x) on an existing item always fails — the items
table holds exactly one row with id x (primary key), so the COUNT(*) over
`id IN (x, x)` returns 1, not the required 2, and no self-loop edge is ever
inserted through AddDep. -/
theorem C10_no_self_loop (s : Store) (x : String) (hn : NodupIDs s)
    (hex : ∃ i ∈ s.items, i.id = x) :
    ∃ msg, AddDep s x x = .error msg := by
  unfold AddDep
  have hcong : s.items.filter (fun i => i.id == x || i.id == x) =
      s.items.filter (fun i => i.id == x) :=
    List.filter_congr (fun i _ => Bool.or_self _)
  rw [hcong, filter_id_eq_one s.items hn x hex]
  rw [if_pos (by omega)]
  exact ⟨_, rfl⟩

/-- Witness for C10 on the single-task store. -/
theorem C10_witness : ∃ msg, AddDep fxStoreTask "ts-000001" "ts-000001" = .error msg :=
  C10_no_self_loop fxStoreTask "ts-000001" (by unfold NodupIDs; decide)
    ⟨fxTask, by decide, rfl⟩

/-- Claim C8 counterexample: deleting the epic that still has a child fails —
the schema declares `parent_id REFERENCES items(id)` and Open turns foreign
keys on, so the final `DELETE FROM items` is rejected while the child row
still names the epic; the epic row survives (and its logs/deps deletions have
already run, the three statements not being wrapped in a transaction). -/
theorem C8_counterexample :
    (∃ i ∈ fxStoreEpicChild.items, i.id = "ep-000001") ∧
      (∃ msg, (DeleteItem fxStoreEpicChild "ep-000001").1 = some msg) ∧
      (∃ i ∈ (DeleteItem fxStoreEpicChild "ep-000001").2.items, i.id = "ep-000001") :=
  ⟨⟨fxEpicOpen, by decide, rfl⟩, ⟨_, rfl⟩, ⟨fxEpicOpen, by decide, rfl⟩⟩

/-- Claim C8 as amended: for an existing item that no other row references —
no other item names it as parent and no learnings row names it as task —
delete removes the item, all of its log rows, and every dependency edge
touching it in either direction, and leaves every other item, log, edge and
the learnings table unchanged.  For an existing item that some other item
still names as parent, or that a learnings row still references, the final
delete fails on the corresponding items(id) foreign key: the item remains,
while its logs and edges have already been removed (no transaction). -/
theorem C8_amended_delete_cascade (s : Store) (id : String)
    (hex : ∃ i ∈ s.items, i.id = id) :
    (((∀ c ∈ s.items, c.id = id ∨ ¬ c.parentId = some id) ∧
        (∀ lg ∈ s.learnings, ¬ lg.taskId = some id)) →
      (DeleteItem s id).1 = none ∧
      (∀ y : Item, y ∈ (DeleteItem s id).2.items ↔ (y ∈ s.items ∧ ¬ y.id = id)) ∧
      (∀ lg : LogEntry, lg ∈ (DeleteItem s id).2.logs ↔
        (lg ∈ s.logs ∧ ¬ lg.itemId = id)) ∧
      (∀ e : String × String, e ∈ (DeleteItem s id).2.deps ↔
        (e ∈ s.deps ∧ ¬ e.1 = id ∧ ¬ e.2 = id)) ∧
      (DeleteItem s id).2.learnings = s.learnings) ∧
    (((∃ c ∈ s.items, ¬ c.id = id ∧ c.parentId = some id) ∨
        (∃ lg ∈ s.learnings, lg.taskId = some id)) →
      (∃ msg, (DeleteItem s id).1 = some msg) ∧
      (∃ y ∈ (DeleteItem s id).2.items, y.id = id) ∧
      (∀ lg : LogEntry, lg ∈ (DeleteItem s id).2.logs ↔
        (lg ∈ s.logs ∧ ¬ lg.itemId = id)) ∧
      (∀ e : String × String, e ∈ (DeleteItem s id).2.deps ↔
        (e ∈ s.deps ∧ ¬ e.1 = id ∧ ¬ e.2 = id)) ∧
      (DeleteItem s id).2.learnings = s.learnings) := by
  have hfound : ¬ (s.items.filter (fun i => i.id == id)).length = 0 := by
    obtain ⟨i, hi, hix⟩ := hex
    have hmem : i ∈ s.items.filter (fun j => j.id == id) :=
      List.mem_filter.mpr ⟨hi, by simp [hix]⟩
    have := List.length_pos.mpr (List.ne_nil_of_mem hmem)
    omega
  unfold DeleteItem
  rw [if_neg hfound]
  dsimp only
  constructor
  · rintro ⟨hnochild, hnolearn⟩
    rw [if_neg ?nofk]
    case nofk =>
      intro hx
      rw [Bool.or_eq_true] at hx
      rcases hx with hx | hx
      · obtain ⟨c, hc, hcp⟩ := List.any_eq_true.mp hx
        rw [Bool.and_eq_true] at hcp
        rcases hnochild c hc with h | h
        · rw [h] at hcp
          simp at hcp
        · exact h (by simpa using hcp.2)
      · obtain ⟨lg, hlg, hlgp⟩ := List.any_eq_true.mp hx
        exact hnolearn lg hlg (by simpa using hlgp)
    refine ⟨rfl, ?_, ?_, ?_, rfl⟩
    · intro y
      rw [List.mem_filter]
      simp
    · intro lg
      rw [List.mem_filter]
      simp
    · intro e
      rw [List.mem_filter]
      simp
  · intro hblocked
    rw [if_pos ?fk]
    case fk =>
      rw [Bool.or_eq_true]
      rcases hblocked with ⟨c, hc, hcne, hcp⟩ | ⟨lg, hlg, hlgp⟩
      · exact Or.inl (List.any_eq_true.mpr ⟨c, hc, by simp [hcne, hcp]⟩)
      · exact Or.inr (List.any_eq_true.mpr ⟨lg, hlg, by simp [hlgp]⟩)
    obtain ⟨i, hi, hix⟩ := hex
    refine ⟨⟨_, rfl⟩, ⟨i, hi, hix⟩, ?_, ?_, rfl⟩
    · intro lg
      rw [List.mem_filter]
      simp
    · intro e
      rw [List.mem_filter]
      simp

/-- Witness for the amended C8 on the single-task store (no children, no
learnings): the delete succeeds and cascades. -/
theorem C8_witness :
    (((∀ c ∈ fxStoreTask.items, c.id = "ts-000001" ∨ ¬ c.parentId = some "ts-000001") ∧
        (∀ lg ∈ fxStoreTask.learnings, ¬ lg.taskId = some "ts-000001")) →
      (DeleteItem fxStoreTask "ts-000001").1 = none ∧
      (∀ y : Item, y ∈ (DeleteItem fxStoreTask "ts-000001").2.items ↔
        (y ∈ fxStoreTask.items ∧ ¬ y.id = "ts-000001")) ∧
      (∀ lg : LogEntry, lg ∈ (DeleteItem fxStoreTask "ts-000001").2.logs ↔
        (lg ∈ fxStoreTask.logs ∧ ¬ lg.itemId = "ts-000001")) ∧
      (∀ e : String × String, e ∈ (DeleteItem fxStoreTask "ts-000001").2.deps ↔
        (e ∈ fxStoreTask.deps ∧ ¬ e.1 = "ts-000001" ∧ ¬ e.2 = "ts-000001")) ∧
      (DeleteItem fxStoreTask "ts-000001").2.learnings = fxStoreTask.learnings) ∧
    (((∃ c ∈ fxStoreTask.items, ¬ c.id = "ts-000001" ∧ c.parentId = some "ts-000001") ∨
        (∃ lg ∈ fxStoreTask.learnings, lg.taskId = some "ts-000001")) →
      (∃ msg, (DeleteItem fxStoreTask "ts-000001").1 = some msg) ∧
      (∃ y ∈ (DeleteItem fxStoreTask "ts-000001").2.items, y.id = "ts-000001") ∧
      (∀ lg : LogEntry, lg ∈ (DeleteItem fxStoreTask "ts-000001").2.logs ↔
        (lg ∈ fxStoreTask.logs ∧ ¬ lg.itemId = "ts-000001")) ∧
      (∀ e : String × String, e ∈ (DeleteItem fxStoreTask "ts-000001").2.deps ↔
        (e ∈ fxStoreTask.deps ∧ ¬ e.1 = "ts-000001" ∧ ¬ e.2 = "ts-000001")) ∧
      (DeleteItem fxStoreTask "ts-000001").2.learnings = fxStoreTask.learnings) :=
  C8_amended_delete_cascade fxStoreTask "ts-000001" ⟨fxTask, by decide, rfl⟩

/-- Claim C9: listing with a status filter returns exactly the in-scope rows
whose effective (derived) status equals the filter — for a task the stored
status, for an epic the status derived from its children (the SQL keeps all
epics and the post-query step removes those whose derived status does not
match).  In particular an epic stored open whose children are all done appears
under the done filter and not under the open filter. -/
theorem C9_list_status_filter (s : Store) (f : ListFilter) (st : String)
    (hst : f.status = some st) (hv : statusIsValid st = true)
    (hty : f.type = "" ∨ typeIsValid f.type = true)
    (hvs : ValidStatuses s) :
    ∃ l, ListItemsFiltered s f = .ok l ∧
      ∀ y, y ∈ l ↔ ∃ x ∈ s.items, listScope s f x = true ∧
        applyDerivedEpicStatus s x = .ok y ∧ y.status = st := by
  unfold ListItemsFiltered
  rw [hst]
  dsimp only
  rw [if_neg (by simp [hv])]
  rw [if_neg (by rcases hty with h | h <;> simp [h])]
  have hall : ∀ x ∈ sortItems (s.items.filter (fun i =>
      listScope s f i && (i.status == st || i.type == "epic"))),
      ∃ j, applyDerivedEpicStatus s x = .ok j :=
    fun x _ => applyDerived_ok_of_valid x
      (fun c hc => hvs c (List.mem_filter.mp hc).1)
  obtain ⟨der, hder, hmem⟩ := mapDerive_ok_of hall
  rw [hder]
  refine ⟨_, rfl, ?_⟩
  intro y
  rw [List.mem_filter]
  constructor
  · rintro ⟨hyd, hyst⟩
    obtain ⟨x, hx, hxy⟩ := (hmem y).mp hyd
    have hxf := List.mem_filter.mp (mem_sortItems.mp hx)
    have hxf2 := hxf.2
    rw [Bool.and_eq_true] at hxf2
    exact ⟨x, hxf.1, hxf2.1, hxy, by simpa using hyst⟩
  · rintro ⟨x, hxs, hscope, hxy, hyst⟩
    refine ⟨(hmem y).mpr ⟨x, mem_sortItems.mpr (List.mem_filter.mpr ⟨hxs, ?_⟩), hxy⟩,
      by simpa using hyst⟩
    rw [Bool.and_eq_true]
    refine ⟨hscope, ?_⟩
    by_cases hxe : (x.type == "epic") = true
    · simp [hxe]
    · have hxe2 : (x.type == "epic") = false := by simpa using hxe
      rw [applyDerived_nonEpic hxe2] at hxy
      cases hxy
      simp [hyst]

/-- Witness for C9: the open epic with one done child listed under the done
status filter. -/
theorem C9_witness :
    ∃ l, ListItemsFiltered fxStoreEpicChild { status := some "done" } = .ok l ∧
      ∀ y, y ∈ l ↔ ∃ x ∈ fxStoreEpicChild.items,
        listScope fxStoreEpicChild { status := some "done" } x = true ∧
        applyDerivedEpicStatus fxStoreEpicChild x = .ok y ∧ y.status = "done" :=
  C9_list_status_filter fxStoreEpicChild { status := some "done" } "done" rfl
    (by decide) (Or.inl rfl) (by unfold ValidStatuses; decide)

end Prog
